import Mathlib

/-!
Verification of the Indigo tree-collection, validation and reconciliation
core against its implementation.

The development shallowly embeds the relevant Python source:
  * `indigo/database/models.py` (deterministic record identity),
  * `indigo/utils/hash_utils.py` (`generate_uuid`),
  * `indigo/database/database.py` (`Database.save_update_delete`),
  * `indigo/systems/purpose/file_validators.py` (structural validators),
  * `indigo/systems/purpose/file_collector.py` (rule sets, rule
    resolution, and the tree walk `collect_files`).

External collaborators (the `librum` document parser reached through
`File.match` / `File.parse`, MongoDB collections, the filesystem) are
modelled as data: parser outcomes are inputs of the walk, a Mongo
collection is a list of records keyed by `id_`, filesystem side effects
are logged explicitly.
-/

namespace Indigo

/-! ## Identity model (`indigo/database/models.py`, `DeterministicDatabaseRecord`) -/

/-- The Python values admitted as determinant-field values
(`_ALLOWED_FIELD_TYPES = (int, float, str, bool, datetime, Path)`).
A `datetime` is carried by the canonical string `date_utils.date_str(v, worded=False)`
produces for it, and a `Path` by its `as_posix()` form, since only those
canonical strings enter the identifier.  `float` values are carried by the
string `str(v)` produces together with their Python truthiness; no claim
depends on the numeric structure of floats. -/
inductive PyValue where
  | pyInt (n : Int)
  | pyFloat (str_form : String) (is_zero : Bool)
  | pyBool (b : Bool)
  | pyStr (s : String)
  | pyDatetime (date_str : String)
  | pyPath (posix : String)
deriving DecidableEq, Repr

/-- The canonical string a value contributes to the identifier, as built in
`DeterministicDatabaseRecord.validate_raw`: `str(value)` for `int`, `float`,
`bool` and `str`, `date_utils.date_str(value, worded=False)` for `datetime`,
`value.as_posix()` for `Path`. -/
def canonicalStr : PyValue → String
  | .pyInt n => toString n
  | .pyFloat s _ => s
  | .pyBool b => if b then "True" else "False"
  | .pyStr s => s
  | .pyDatetime d => d
  | .pyPath p => p

/-- Python truthiness of a value, translating the `if not value: continue`
test in `validate_raw`: `0`, `0.0`, `False` and `""` are falsy, `datetime`
and `Path` instances are always truthy. -/
def pyFalsy : PyValue → Bool
  | .pyInt n => n == 0
  | .pyFloat _ z => z
  | .pyBool b => !b
  | .pyStr s => s == ""
  | .pyDatetime _ => false
  | .pyPath _ => false

/-- A `DeterministicDatabaseRecord` subtype: its class name and its declared
`DETERMINANT_FIELDS`. -/
structure RecordClass where
  className : String
  DETERMINANT_FIELDS : List String
deriving DecidableEq, Repr

/-- `values.get(field)` on the keyword arguments supplied at construction,
modelled as first-occurrence lookup in an association list. -/
def getValue (values : List (String × PyValue)) (field : String) : Option PyValue :=
  (values.find? (fun p => p.fst == field)).map Prod.snd

/-- The list `determinant_values` built by `validate_raw`: the class name
followed by the canonical string of every declared determinant field whose
supplied value is present and truthy, in declaration order. -/
def determinant_values (cls : RecordClass) (values : List (String × PyValue)) :
    List String :=
  cls.className :: cls.DETERMINANT_FIELDS.filterMap (fun f =>
    match getValue values f with
    | none => none
    | some v => if pyFalsy v then none else some (canonicalStr v))

/-- `generate_uuid` from `indigo/utils/hash_utils.py`.  The MD5 hex digest
from Python's `hashlib` (standard-library code, external to the repository)
is modelled as an injective deterministic function of the input string; every
claim below depends only on it being a function of its argument. -/
def generate_uuid (identifier : String) : String :=
  "md5:" ++ identifier

/-- The identifier computation of
`DeterministicDatabaseRecord.validate_raw` when no explicit `_id` is
supplied: join the class name and the truthy determinant canonical strings
with `"_"` and hash; raise (`.error`) when only the class name is available. -/
def validate_raw (cls : RecordClass) (values : List (String × PyValue)) :
    Except String String :=
  if (determinant_values cls values).length < 2 then
    .error "Cannot generate id based only on the class name."
  else
    .ok (generate_uuid (String.intercalate "_" (determinant_values cls values)))

/-- The full `_id` computation of `validate_raw`: an explicitly supplied
`_id` is kept verbatim, otherwise the deterministic identifier is computed. -/
def recordId (cls : RecordClass) (explicit : Option String)
    (values : List (String × PyValue)) : Except String String :=
  match explicit with
  | some i => .ok i
  | none => validate_raw cls values

/-! ## Reconciliation engine (`indigo/database/database.py`, `Database.save_update_delete`) -/

/-- A persisted database record as the reconciliation engine sees it:
its identifier, its `updated_at` filesystem timestamp, and the remaining
field content bundled as `payload` (the engine never inspects it).
A MongoDB collection is modelled as a list of such records in insertion
order; the collection key `_id` makes persisted identifiers unique, which
the theorems carry as a `Nodup` hypothesis. -/
structure DBRecord where
  id_ : String
  updated_at : Int
  payload : String
deriving DecidableEq, Repr

/-- `FileRecord.__eq__` from `indigo/systems/purpose/models.py`:
two records are equal when their ids and their `updated_at` timestamps
agree; nothing else is compared. -/
def fileRecordEq (a b : DBRecord) : Bool :=
  a.id_ == b.id_ && a.updated_at == b.updated_at

/-- `Database.retrieve`: `find_one({"_id": id_})` on the collection. -/
def retrieve (store : List DBRecord) (id_ : String) : Option DBRecord :=
  store.find? (fun r => r.id_ == id_)

/-- `Database.update`: `update_one({"_id": ...}, {"$set": ...})` replaces the
document carrying the item's id by the item.  On a collection with unique
ids at most one entry is replaced, as in Mongo. -/
def updateById (store : List DBRecord) (item : DBRecord) : List DBRecord :=
  store.map (fun r => if r.id_ == item.id_ then item else r)

/-- `Database.delete` / `del existing_items_by_id[id_]`: drop the entry
carrying the id. -/
def deleteById (store : List DBRecord) (id_ : String) : List DBRecord :=
  store.filter (fun r => r.id_ != id_)

/-- The mutable state of the `save_update_delete` loop: the live collection,
the `existing_items_by_id` snapshot of entries not yet re-observed, and the
`saved` / `updated` / `unchanged` accumulators. -/
structure SUDState where
  live : List DBRecord
  snapshot : List DBRecord
  saved : List DBRecord
  updated : List DBRecord
  unchanged : List DBRecord
deriving DecidableEq, Repr

/-- One iteration of the `for item in items` loop of `save_update_delete`.
`retrieve` consults the live collection; a found item is first deleted from
the snapshot (`del existing_items_by_id[item.id_]`, which raises `KeyError`
(`none`) when the key is absent — that only happens for duplicated incoming
ids), then compared with `FileRecord.__eq__`; an absent item is inserted. -/
def sudProcess (st : SUDState) (item : DBRecord) : Option SUDState :=
  match retrieve st.live item.id_ with
  | some existing_item =>
      if (retrieve st.snapshot item.id_).isSome then
        let st' := { st with snapshot := deleteById st.snapshot item.id_ }
        if fileRecordEq item existing_item then
          some { st' with unchanged := st'.unchanged ++ [item] }
        else
          some { st' with live := updateById st'.live item,
                          updated := st'.updated ++ [item] }
      else none
  | none =>
      some { st with live := st.live ++ [item], saved := st.saved ++ [item] }

/-- The `for item in items` loop of `save_update_delete`, processing the
incoming records in order. -/
def sudLoop : SUDState → List DBRecord → Option SUDState
  | st, [] => some st
  | st, item :: rest =>
    match sudProcess st item with
    | some st' => sudLoop st' rest
    | none => none

/-- The value of `save_update_delete`: the four partitions together with the
final contents of the collection. -/
structure SUDResult where
  saved : List DBRecord
  updated : List DBRecord
  deleted : List DBRecord
  unchanged : List DBRecord
  finalStore : List DBRecord
deriving DecidableEq, Repr

/-- `Database.save_update_delete`: snapshot the collection, run the loop over
the incoming records, then delete every snapshot leftover from the collection,
reporting the leftovers (in snapshot order) as the `deleted` partition. -/
def save_update_delete (store : List DBRecord) (items : List DBRecord) :
    Option SUDResult :=
  match sudLoop ⟨store, store, [], [], []⟩ items with
  | none => none
  | some st =>
      some { saved := st.saved
             updated := st.updated
             deleted := st.snapshot
             unchanged := st.unchanged
             finalStore := st.snapshot.foldl (fun l r => deleteById l r.id_) st.live }

/-- The ids of a list of records, in order. -/
def idsOf (l : List DBRecord) : List String := l.map (fun r => r.id_)

/-- Incoming records that are absent from the given store (the `saved`
partition, characterised against the pre-run store). -/
def savedSpec (store items : List DBRecord) : List DBRecord :=
  items.filter (fun i => (retrieve store i.id_).isNone)

/-- Incoming records present in the given store but differing by
`FileRecord.__eq__` (the `updated` partition). -/
def updatedSpec (store items : List DBRecord) : List DBRecord :=
  items.filter (fun i =>
    match retrieve store i.id_ with
    | some e => !fileRecordEq i e
    | none => false)

/-- Incoming records present in the given store and equal by
`FileRecord.__eq__` (the `unchanged` partition). -/
def unchangedSpec (store items : List DBRecord) : List DBRecord :=
  items.filter (fun i =>
    match retrieve store i.id_ with
    | some e => fileRecordEq i e
    | none => false)

/-- Persisted records whose id is not re-observed among the incoming ones
(the `deleted` partition). -/
def deletedSpec (store items : List DBRecord) : List DBRecord :=
  store.filter (fun r => items.all (fun i => i.id_ != r.id_))

/-- How one pre-existing collection entry looks after the loop: replaced by
the matching incoming record when that record triggered an update, untouched
otherwise. -/
def reconcileEntry (store items : List DBRecord) (r : DBRecord) : DBRecord :=
  match items.find? (fun i => i.id_ == r.id_) with
  | some i =>
      match retrieve store i.id_ with
      | some e => if fileRecordEq i e then r else i
      | none => r
  | none => r

/-- The live collection after the loop (before the trailing deletes): the
original entries with updates applied in place, followed by the newly
inserted records in arrival order. -/
def liveAfter (store items live : List DBRecord) : List DBRecord :=
  live.map (reconcileEntry store items) ++ savedSpec store items

/-- The snapshot after the loop: entries whose id no incoming record carries. -/
def snapAfter (items snap : List DBRecord) : List DBRecord :=
  snap.filter (fun r => items.all (fun i => i.id_ != r.id_))

/-- The collection contents after one full reconciliation run: the original
entries with updates applied in place and fresh records appended, minus the
deleted leftovers. -/
def finalStoreSpec (store items : List DBRecord) : List DBRecord :=
  (liveAfter store items store).filter
    (fun x => (deletedSpec store items).all (fun r => x.id_ != r.id_))

/-! ## Structural validators (`indigo/systems/purpose/file_validators.py`) -/

/-- Python `repr` of a string, as the `!r` format specifier renders the
names appearing in error messages. -/
def pyRepr (s : String) : String := "\x27" ++ s ++ "\x27"

/-- Python's `str.endswith`, modelled over the character list. -/
def strEndsWith (s tail_ : String) : Bool := tail_.toList.isSuffixOf s.toList

/-- Python's `str.startswith`, modelled over the character list. -/
def strStartsWith (s stem : String) : Bool := stem.toList.isPrefixOf s.toList

/-- `RootFile.FILE_TAG` (`indigo/systems/purpose/files.py`). -/
def ROOT_FILE_TAG : String := "root_file"

/-- `NoteFile.FILE_TAG`. -/
def NOTE_FILE_TAG : String := "note_file"

/-- `EssayFile.FILE_TAG`. -/
def ESSAY_FILE_TAG : String := "essay_file"

/-- `ThoughtsFile.FILE_TAG`. -/
def THOUGHTS_FILE_TAG : String := "thoughts_file"

/-- `StudyFile.FILE_TAG`. -/
def STUDY_FILE_TAG : String := "study_file"

/-- The transient `Directory` aggregate handed to the validators
(`file_validators.py`).  `pathName` is `directory.path.name`, `parentName`
is `directory.path.parent.name`, subdirectories and files are carried by
their names (validators only ever read `.name` of those paths). -/
structure Directory where
  pathName : String
  parentName : String
  subdirectoryNames : List String
  fileNames : List String
  file_records : List DBRecord
  file_tags : List String
  errors : List String
deriving DecidableEq, Repr

/-- Append one error string to the aggregate. -/
def addError (d : Directory) (e : String) : Directory :=
  { d with errors := d.errors ++ [e] }

/-- `no_files_validator`. -/
def no_files_validator (d : Directory) : Directory :=
  if d.fileNames.isEmpty then
    addError d ("Directory " ++ pyRepr d.pathName ++ " does not contain any files.")
  else d

/-- `non_markdown_files_validator`: one error per file whose name does not
end in `.md`. -/
def non_markdown_files_validator (d : Directory) : Directory :=
  d.fileNames.foldl (fun acc f =>
    if !strEndsWith f ".md" then
      addError acc ("Directory " ++ pyRepr acc.pathName ++ " contains non-markdown files.")
    else acc) d

/-- `no_subdirectories_validator`. -/
def no_subdirectories_validator (d : Directory) : Directory :=
  if !d.subdirectoryNames.isEmpty then
    addError d ("Directory " ++ pyRepr d.pathName ++ " must not contain subdirectories.")
  else d

/-- `root_file_validator`: exactly one file tagged `root_file`. -/
def root_file_validator (d : Directory) : Directory :=
  let root_file_count := (d.file_tags.filter (fun t => t == ROOT_FILE_TAG)).length
  if root_file_count != 1 then
    addError d ("Directory " ++ pyRepr d.pathName ++ " must contain only one root file.")
  else d

/-- `no_root_file_validator`. -/
def no_root_file_validator (d : Directory) : Directory :=
  if d.file_tags.contains ROOT_FILE_TAG then
    addError d ("Directory " ++ pyRepr d.pathName ++ " must not contain a root file.")
  else d

/-- `only_root_file_validator`: the observed tag list must be exactly
`[root_file]` (a list comparison in the source, so order and multiplicity
both matter). -/
def only_root_file_validator (d : Directory) : Directory :=
  if d.file_tags != [ROOT_FILE_TAG] then
    addError d ("Directory " ++ pyRepr d.pathName ++ " must only contain a root file.")
  else d

/-- `notes_directory_validator`: one error per observed tag that is neither
the root-file tag nor the note-file tag. -/
def notes_directory_validator (d : Directory) : Directory :=
  d.file_tags.foldl (fun acc tag =>
    if tag != ROOT_FILE_TAG && tag != NOTE_FILE_TAG then
      addError acc ("Directory " ++ pyRepr acc.pathName ++
        " should only contain a root file and note files, not " ++ pyRepr tag ++ " files.")
    else acc) d

/-- Set equality of the observed tags with the allowed set, translating
`set(directory.file_tags) != allowed_tags`. -/
def tagSetEq (observed allowed : List String) : Bool :=
  observed.all (fun t => allowed.contains t) && allowed.all (fun t => observed.contains t)

/-- `allowed_file_tags_validator` (with `allowed_tags` bound by
`functools.partial`). -/
def allowed_file_tags_validator (allowed_tags : List String) (d : Directory) : Directory :=
  if !tagSetEq d.file_tags allowed_tags then
    addError d ("Directory " ++ pyRepr d.pathName ++ " should only contain \x7b" ++
      String.intercalate ", " (allowed_tags.map pyRepr) ++ "\x7d files.")
  else d

/-- `yarly_directory_current_year_validator` (sic): one error per file whose
name does not start with the decimal rendering of the current year. -/
def yarly_directory_current_year_validator (currentYear : Nat) (d : Directory) : Directory :=
  d.fileNames.foldl (fun acc f =>
    if !strStartsWith f (toString currentYear) then
      addError acc ("Directory " ++ pyRepr acc.pathName ++
        "\x27s files must be prefixed with the current year.")
    else acc) d

/-- The pattern `^[2-9][0-9]{3}$` of `yearly_directory_subdirectories_validator`:
exactly four characters, the first a digit between `2` and `9`, the rest
decimal digits. -/
def yearNameMatch (s : String) : Bool :=
  match s.toList with
  | [c1, c2, c3, c4] =>
      decide ('2' ≤ c1) && decide (c1 ≤ '9') && c2.isDigit && c3.isDigit && c4.isDigit
  | _ => false

/-- The year pattern as the specification words it — a 4-digit year in the
range 1000–9999 — written from the spec's words, for comparison with the
source pattern `yearNameMatch`. -/
def specYearName (s : String) : Bool :=
  match s.toList with
  | [c1, c2, c3, c4] =>
      decide ('1' ≤ c1) && decide (c1 ≤ '9') && c2.isDigit && c3.isDigit && c4.isDigit
  | _ => false

/-- The error message `yearly_directory_subdirectories_validator` appends. -/
def yearlySubdirErrorMsg (dirName : String) : String :=
  "Directory " ++ pyRepr dirName ++ "\x27s subdirectories must be prefixed with a year."

/-- `yearly_directory_subdirectories_validator`: one error per subdirectory
whose name does not match `^[2-9][0-9]{3}$`. -/
def yearly_directory_subdirectories_validator (d : Directory) : Directory :=
  d.subdirectoryNames.foldl (fun acc name =>
    if !yearNameMatch name then
      addError acc (yearlySubdirErrorMsg acc.pathName)
    else acc) d

/-- `yearly_directory_parent_year_validator`: one error per file whose name
does not start with the parent directory's name. -/
def yearly_directory_parent_year_validator (d : Directory) : Directory :=
  d.fileNames.foldl (fun acc f =>
    if !strStartsWith f d.parentName then
      addError acc ("Directory " ++ pyRepr acc.pathName ++
        "\x27s files must be from the year " ++ pyRepr d.parentName ++ ".")
    else acc) d

/-- `archive_validator`: one error per file whose name does not start with
`archived_`. -/
def archive_validator (d : Directory) : Directory :=
  d.fileNames.foldl (fun acc f =>
    if !strStartsWith f "archived_" then
      addError acc ("Directory " ++ pyRepr acc.pathName ++
        " files should be prefixed with `_archived`.")
    else acc) d

/-! ## Rule sets and rule resolution (`indigo/systems/purpose/file_collector.py`) -/

/-- First-class names for the validator callables of `file_validators.py`,
so that the validator lists of a rule set are data (as the callables are in
Python).  `allowed_file_tags` carries the tag set bound by
`functools.partial`. -/
inductive Validator where
  | no_files
  | non_markdown_files
  | no_subdirectories
  | root_file
  | no_root_file
  | only_root_file
  | notes_directory
  | allowed_file_tags (allowed_tags : List String)
  | yarly_current_year
  | yearly_subdirectories
  | yearly_parent_year
  | archive
deriving DecidableEq, Repr

/-- Run one named validator (`validator(directory)` in
`FileCollector._run_validators`); the current calendar year feeds the
`date_utils.now().year` read of the yearly validator. -/
def runValidator (currentYear : Nat) : Validator → Directory → Directory
  | .no_files => no_files_validator
  | .non_markdown_files => non_markdown_files_validator
  | .no_subdirectories => no_subdirectories_validator
  | .root_file => root_file_validator
  | .no_root_file => no_root_file_validator
  | .only_root_file => only_root_file_validator
  | .notes_directory => notes_directory_validator
  | .allowed_file_tags allowed => allowed_file_tags_validator allowed
  | .yarly_current_year => yarly_directory_current_year_validator currentYear
  | .yearly_subdirectories => yearly_directory_subdirectories_validator
  | .yearly_parent_year => yearly_directory_parent_year_validator
  | .archive => archive_validator

/-- A rule set: the own-validator list and the subdirectory-validator list
(`DirectoryValidators`). -/
structure DirectoryValidators where
  validators : List Validator
  subdirectory_validators : List Validator
deriving DecidableEq, Repr

/-- `DirectoryValidators.__init__`: both lists get `no_files_validator` and
`non_markdown_files_validator` appended; when
`apply_validators_to_subdirectories` is set, the subdirectory list is then
overwritten with a copy of the *given* subdirectory validators extended by
the given own validators not already present — rebuilt from the raw
arguments, without the two appended baseline validators. -/
def mkDirectoryValidators (validators : List Validator)
    (subdirectory_validators : List Validator)
    (apply_validators_to_subdirectories : Bool) : DirectoryValidators :=
  let own := validators ++ [.no_files, .non_markdown_files]
  let subs := subdirectory_validators ++ [.no_files, .non_markdown_files]
  if apply_validators_to_subdirectories then
    { validators := own
      subdirectory_validators :=
        subdirectory_validators ++
          validators.filter (fun v => !subdirectory_validators.contains v) }
  else
    { validators := own, subdirectory_validators := subs }

/-- The `"purpose"` entry of `DIRECTORY_VALIDATORS`. -/
def purposeValidators : DirectoryValidators :=
  mkDirectoryValidators [.root_file] [] false

/-- The `"purpose/essays"` entry. -/
def essaysValidators : DirectoryValidators :=
  mkDirectoryValidators
    [.no_root_file, .no_subdirectories, .allowed_file_tags [ESSAY_FILE_TAG]] [] false

/-- The `"purpose/essays_bg"` entry. -/
def essaysBgValidators : DirectoryValidators :=
  mkDirectoryValidators
    [.no_root_file, .no_subdirectories, .allowed_file_tags [ESSAY_FILE_TAG]] [] false

/-- The `"thoughts"` entry. -/
def thoughtsValidators : DirectoryValidators :=
  mkDirectoryValidators
    [.no_root_file, .yarly_current_year, .yearly_subdirectories,
     .allowed_file_tags [THOUGHTS_FILE_TAG]]
    [.no_root_file, .no_subdirectories, .yearly_parent_year] false

/-- The `"studies"` entry. -/
def studiesValidators : DirectoryValidators :=
  mkDirectoryValidators
    [.root_file, .only_root_file]
    [.root_file, .allowed_file_tags [STUDY_FILE_TAG]] false

/-- The `"archive"` entry (built with
`apply_validators_to_subdirectories=True`). -/
def archiveValidators : DirectoryValidators :=
  mkDirectoryValidators [.archive, .no_root_file, .notes_directory] [] true

/-- The `DIRECTORY_VALIDATORS` mapping, keyed by slash-joined relative path. -/
def DIRECTORY_VALIDATORS : List (String × DirectoryValidators) :=
  [("purpose", purposeValidators),
   ("purpose/essays", essaysValidators),
   ("purpose/essays_bg", essaysBgValidators),
   ("thoughts", thoughtsValidators),
   ("studies", studiesValidators),
   ("archive", archiveValidators)]

/-- `FileCollector.root_directory_validators`. -/
def root_directory_validators : DirectoryValidators :=
  mkDirectoryValidators [.only_root_file] [] false

/-- `FileCollector.default_directory_validators` (built with
`apply_validators_to_subdirectories=True`). -/
def default_directory_validators : DirectoryValidators :=
  mkDirectoryValidators [.root_file, .notes_directory] [] true

/-- `self.directory_validators.get(joined_parts)`. -/
def lookupDV (key : String) : Option DirectoryValidators :=
  (DIRECTORY_VALIDATORS.find? (fun p => p.fst == key)).map Prod.snd

/-- `"/".join(parts)`. -/
def joinParts (parts : List String) : String := String.intercalate "/" parts

/-- The `while parts:` loop of `_run_validators`: look up the slash-joined
first `k` segments, shortening by one segment per round; return the matched
rule set together with the matched length. -/
def ruleSearch (parts : List String) : Nat → Option (DirectoryValidators × Nat)
  | 0 => none
  | Nat.succ k =>
    match lookupDV (joinParts (parts.take (k + 1))) with
    | some dv => some (dv, k + 1)
    | none => ruleSearch parts k

/-- The validator list `_run_validators` executes for a directory at the
given relative path segments: the root-only rule set's own validators at the
root; otherwise the longest matching rule set's own validators on an exact
match and its subdirectory validators on an ancestor match
(`are_child_validators`); the default rule set's own validators when nothing
matches. -/
def selectValidators (parts : List String) : List Validator :=
  if parts.isEmpty then root_directory_validators.validators
  else
    match ruleSearch parts parts.length with
    | some (dv, len) =>
        if len == parts.length then dv.validators else dv.subdirectory_validators
    | none => default_directory_validators.validators

/-- The trailing loop of `_run_validators`: run every selected validator, in
order, over the aggregate. -/
def run_validators (currentYear : Nat) (parts : List String) (d : Directory) : Directory :=
  (selectValidators parts).foldl (fun acc v => runValidator currentYear v acc) d

/-! ## The tree walk (`FileCollector.collect_files`) -/

/-- Modelled from the spec: the outcome of handing one file to the external
document parser (`File.match` followed by `file.parse()`; the `File` base
class lives in `indigo/models/files.py`, which is not part of the sources
here, and delegates to the external `librum` grammar engine).  Per the spec,
`File.match` either recognises the file — exposing its `FILE_TAG` before any
parsing happens — or raises a `FileError` for an unrecognised name or
extension; `parse` then either succeeds (producing a record exactly for
`RecordedFile` subtypes) or raises a `FileError`/`SectionError` carrying a
message.  The walk receives the outcome as data attached to each file. -/
inductive ParseOutcome where
  | unmatched (message : String)
  | matchedFail (tag : String) (message : String)
  | matchedPlain (tag : String)
  | matchedRecord (tag : String) (record : DBRecord)
deriving DecidableEq, Repr

/-- A file on disk: its basename and its parser outcome. -/
structure FileEntry where
  name : String
  outcome : ParseOutcome
deriving DecidableEq, Repr

/-- A directory tree rooted at the walked location, as `os.walk` traverses
it: a directory name, its immediate files, and its immediate
subdirectories. -/
inductive DirTree where
  | node (name : String) (files : List FileEntry) (subdirs : List DirTree)
deriving Repr

/-- The name of the tree's root directory. -/
def DirTree.name : DirTree → String
  | .node n _ _ => n

/-- The immediate files of the tree's root directory. -/
def DirTree.files : DirTree → List FileEntry
  | .node _ fs _ => fs

/-- The immediate subdirectories of the tree's root directory. -/
def DirTree.subdirs : DirTree → List DirTree
  | .node _ _ ss => ss

/-- `str(error).removesuffix(".")`. -/
def stripDot (s : String) : String :=
  if strEndsWith s "." then String.mk s.toList.dropLast else s

/-- The `relative_path.as_posix()` of a file, from the relative path
segments of its directory. -/
def relPathStr (parts : List String) (fileName : String) : String :=
  joinParts (parts ++ [fileName])

/-- The per-directory accumulator of the `for file in files_` loop of
`collect_files`: the four lists the loop builds, plus the log of
`os.remove` side effects. -/
structure WalkDirState where
  file_records : List DBRecord
  file_tags : List String
  errors : List String
  removed : List String
deriving DecidableEq, Repr

/-- One iteration of the `for file in files_` loop of `collect_files`: a
file named `.DS_Store` is removed from disk (logged in `removed`), and the
file — whatever its name — is then handed to `File.match`; a recognised
file's tag is appended before parsing, a successful parse of a
`RecordedFile` appends its record, and a `FileError`/`SectionError` from
either step appends the error formatted as
`"{relative_path.as_posix()!r}: " + str(error).removesuffix(".")`. -/
def processFile (parts : List String) (acc : WalkDirState) (f : FileEntry) :
    WalkDirState :=
  let rel := relPathStr parts f.name
  let acc := if f.name == ".DS_Store"
             then { acc with removed := acc.removed ++ [rel] }
             else acc
  match f.outcome with
  | .unmatched msg =>
      { acc with errors := acc.errors ++ [pyRepr rel ++ ": " ++ stripDot msg] }
  | .matchedFail tag msg =>
      { acc with file_tags := acc.file_tags ++ [tag]
                 errors := acc.errors ++ [pyRepr rel ++ ": " ++ stripDot msg] }
  | .matchedPlain tag =>
      { acc with file_tags := acc.file_tags ++ [tag] }
  | .matchedRecord tag r =>
      { acc with file_tags := acc.file_tags ++ [tag]
                 file_records := acc.file_records ++ [r] }

/-- The whole `for file in files_` loop over a directory's files. -/
def processFiles (parts : List String) (files : List FileEntry) : WalkDirState :=
  files.foldl (processFile parts) ⟨[], [], [], []⟩

/-- Processing of one visited directory: run the file loop, build the
`Directory` aggregate, and run the resolved validators over it
(`self._run_validators(directory)`). -/
def collectDir (currentYear : Nat) (dirName parentName : String)
    (parts : List String) (files : List FileEntry) (subdirNames : List String) :
    Directory × List String :=
  let st := processFiles parts files
  let d : Directory :=
    { pathName := dirName
      parentName := parentName
      subdirectoryNames := subdirNames
      fileNames := files.map (fun f => f.name)
      file_records := st.file_records
      file_tags := st.file_tags
      errors := st.errors }
  (run_validators currentYear parts d, st.removed)

mutual

/-- The `os.walk` traversal of `collect_files`, top-down: process the
directory itself, then its subdirectories in order; return the accumulated
records, errors and removal log.  `parts` is the directory's path relative
to the notes root (empty at the walked location itself, which coincides
with the notes root), `parentName` the name of its parent directory. -/
def walkTree (currentYear : Nat) (parentName : String) (parts : List String) :
    DirTree → List DBRecord × List String × List String
  | .node dirName files subs =>
      let (d, removed) :=
        collectDir currentYear dirName parentName parts files
          (subs.map DirTree.name)
      let below := walkSubs currentYear dirName parts subs
      (d.file_records ++ below.1, d.errors ++ below.2.1, removed ++ below.2.2)

/-- Traversal of a list of sibling subdirectories, in order. -/
def walkSubs (currentYear : Nat) (parentName : String) (parts : List String) :
    List DirTree → List DBRecord × List String × List String
  | [] => ([], [], [])
  | t :: ts =>
      let r₁ := walkTree currentYear parentName (parts ++ [t.name]) t
      let r₂ := walkSubs currentYear parentName parts ts
      (r₁.1 ++ r₂.1, r₁.2.1 ++ r₂.2.1, r₁.2.2 ++ r₂.2.2)

end

/-- The result type of `collect_files`. -/
structure FileCollectorResult where
  records : List DBRecord
  errors : List String
deriving DecidableEq, Repr

/-- `FileCollector.collect_files`, walking the notes root: accumulate every
directory's records and errors, then return all records when the error list
is empty and an empty record list otherwise.  The second component is the
log of files removed from disk during the walk. -/
def collect_files (currentYear : Nat) (parentName : String)
    (tree : DirTree) : FileCollectorResult × List String :=
  ({ records := if (walkTree currentYear parentName [] tree).2.1.isEmpty
        then (walkTree currentYear parentName [] tree).1 else []
     errors := (walkTree currentYear parentName [] tree).2.1 },
   (walkTree currentYear parentName [] tree).2.2)

/-- The tags the parser reports for a list of files (every recognised file
contributes its tag, parse failure or not). -/
def tagsOfFiles (files : List FileEntry) : List String :=
  files.filterMap (fun f =>
    match f.outcome with
    | .unmatched _ => none
    | .matchedFail tag _ => some tag
    | .matchedPlain tag => some tag
    | .matchedRecord tag _ => some tag)

/-- The records extracted from a list of files. -/
def recordsOfFiles (files : List FileEntry) : List DBRecord :=
  files.filterMap (fun f =>
    match f.outcome with
    | .matchedRecord _ r => some r
    | _ => none)

mutual

/-- The records the external parser extracts from every directory of the
tree, in walk order, independent of validation. -/
def treeRecords : DirTree → List DBRecord
  | .node _ files subs => recordsOfFiles files ++ treeRecordsList subs

/-- `treeRecords` over a list of sibling subdirectories. -/
def treeRecordsList : List DirTree → List DBRecord
  | [] => []
  | t :: ts => treeRecords t ++ treeRecordsList ts

end

/-- A concrete walked tree: a root directory holding a `.DS_Store` noise
file next to a valid root document.  The parser outcome attached to
`.DS_Store` is the spec-described rejection of an unrecognised,
non-markdown name by `File.match`. -/
def dsStoreTree : DirTree :=
  DirTree.node "notes"
    [{ name := ".DS_Store",
       outcome := ParseOutcome.unmatched "File \x27.DS_Store\x27 is not a .md file." },
     { name := "_notes.md",
       outcome := ParseOutcome.matchedRecord "root_file"
         { id_ := "id-root", updated_at := 0, payload := "notes root" } }] []

/-- A concrete walked tree that passes every validator: a root directory
holding exactly one parsed root document. -/
def cleanTree : DirTree :=
  DirTree.node "notes"
    [{ name := "_notes.md",
       outcome := ParseOutcome.matchedRecord "root_file"
         { id_ := "id-root", updated_at := 0, payload := "notes root" } }] []

/-! ## Theorems -/

/-- C4: two records of the same `DeterministicDatabaseRecord` subtype whose
declared determinant fields carry equal values are assigned the same
computed id, whatever the values of the other supplied fields are and in
whatever order the keyword arguments arrive at construction. -/
theorem deterministic_id_independent (cls : RecordClass)
    (v₁ v₂ : List (String × PyValue))
    (h : ∀ f ∈ cls.DETERMINANT_FIELDS, getValue v₁ f = getValue v₂ f) :
    validate_raw cls v₁ = validate_raw cls v₂ := by
  have hdv : determinant_values cls v₁ = determinant_values cls v₂ := by
    simp only [determinant_values]
    congr 1
    exact List.filterMap_congr (fun f hf => by rw [h f hf])
  unfold validate_raw
  rw [hdv]

/-- Witness for `deterministic_id_independent`: two argument lists for
`FileRecord` differing in supply order and in the non-determinant `title`,
but equal on the determinant `path`, yield the same id. -/
theorem deterministic_id_independent_witness :
    (∀ f ∈ (RecordClass.mk "FileRecord" ["path"]).DETERMINANT_FIELDS,
        getValue [("path", PyValue.pyPath "notes/a.md"), ("title", PyValue.pyStr "A")] f =
          getValue [("title", PyValue.pyStr "B"), ("path", PyValue.pyPath "notes/a.md")] f) ∧
    validate_raw (RecordClass.mk "FileRecord" ["path"])
        [("path", PyValue.pyPath "notes/a.md"), ("title", PyValue.pyStr "A")] =
      validate_raw (RecordClass.mk "FileRecord" ["path"])
        [("title", PyValue.pyStr "B"), ("path", PyValue.pyPath "notes/a.md")] :=
  ⟨by decide, deterministic_id_independent _ _ _ (by decide)⟩

/-- C7: constructing a deterministically identified record without an
explicit `_id` raises the identity error exactly when every declared
determinant field is absent or empty in Python's sense (`if not value`:
`0`, `0.0`, `False`, `""`); with at least one truthy determinant value the
computation succeeds and returns exactly the hash of the canonical
concatenation — a fixed function of the supplied values, so the same input
always yields the same id. -/
theorem identity_error_characterisation (cls : RecordClass)
    (values : List (String × PyValue)) :
    ((∃ e, recordId cls none values = Except.error e) ↔
      ∀ f ∈ cls.DETERMINANT_FIELDS, ∀ v, getValue values f = some v → pyFalsy v = true) ∧
    ((∃ f ∈ cls.DETERMINANT_FIELDS, ∃ v, getValue values f = some v ∧ pyFalsy v = false) →
      recordId cls none values =
        Except.ok (generate_uuid (String.intercalate "_" (determinant_values cls values)))) := by
  have hfn : ∀ f, ((match getValue values f with
      | none => none
      | some v => if pyFalsy v then none else some (canonicalStr v)) = none ↔
      ∀ v, getValue values f = some v → pyFalsy v = true) := by
    intro f
    cases hg : getValue values f with
    | none => simp
    | some v =>
        by_cases hv : pyFalsy v = true
        · simp [hv]
        · simp [hv]
  have hnil : (cls.DETERMINANT_FIELDS.filterMap (fun f =>
      match getValue values f with
      | none => none
      | some v => if pyFalsy v then none else some (canonicalStr v)) = [] ↔
      ∀ f ∈ cls.DETERMINANT_FIELDS, ∀ v, getValue values f = some v → pyFalsy v = true) := by
    rw [List.filterMap_eq_nil_iff]
    exact ⟨fun h f hf => (hfn f).1 (h f hf), fun h f hf => (hfn f).2 (h f hf)⟩
  constructor
  · rw [← hnil]
    simp only [recordId, validate_raw, determinant_values]
    cases hC : cls.DETERMINANT_FIELDS.filterMap (fun f =>
        match getValue values f with
        | none => none
        | some v => if pyFalsy v then none else some (canonicalStr v)) with
    | nil => simp
    | cons a L =>
        rw [if_neg (by simp only [List.length_cons]; omega)]
        simp
  · rintro ⟨f, hf, v, hg, hv⟩
    have hne : cls.DETERMINANT_FIELDS.filterMap (fun f =>
        match getValue values f with
        | none => none
        | some v => if pyFalsy v then none else some (canonicalStr v)) ≠ [] := by
      intro hc
      have hall := (List.filterMap_eq_nil_iff.mp hc) f hf
      rw [hg] at hall
      simp [hv] at hall
    have hcond : ¬ ((determinant_values cls values).length < 2) := by
      simp only [determinant_values]
      cases hC : cls.DETERMINANT_FIELDS.filterMap (fun f =>
          match getValue values f with
          | none => none
          | some v => if pyFalsy v then none else some (canonicalStr v)) with
      | nil => exact absurd hC hne
      | cons a L => simp only [List.length_cons]; omega
    simp only [recordId, validate_raw]
    rw [if_neg hcond]

/-- C6 (amended): the two baseline validators are appended to the own list
of every rule set and to the subdirectory list of every rule set built
without `apply_validators_to_subdirectories`; when that flag is set the
subdirectory list is rebuilt from the raw arguments alone, so it contains a
baseline validator only when the caller passed it explicitly. -/
theorem baseline_validators_membership (vs ss : List Validator) :
    (Validator.no_files ∈ (mkDirectoryValidators vs ss false).validators ∧
     Validator.non_markdown_files ∈ (mkDirectoryValidators vs ss false).validators ∧
     Validator.no_files ∈ (mkDirectoryValidators vs ss false).subdirectory_validators ∧
     Validator.non_markdown_files ∈
       (mkDirectoryValidators vs ss false).subdirectory_validators) ∧
    (Validator.no_files ∈ (mkDirectoryValidators vs ss true).validators ∧
     Validator.non_markdown_files ∈ (mkDirectoryValidators vs ss true).validators) ∧
    (Validator.no_files ∈ (mkDirectoryValidators vs ss true).subdirectory_validators ↔
      Validator.no_files ∈ ss ∨ Validator.no_files ∈ vs) ∧
    (Validator.non_markdown_files ∈ (mkDirectoryValidators vs ss true).subdirectory_validators ↔
      Validator.non_markdown_files ∈ ss ∨ Validator.non_markdown_files ∈ vs) := by
  refine ⟨⟨?_, ?_, ?_, ?_⟩, ⟨?_, ?_⟩, ?_, ?_⟩ <;>
    simp [mkDirectoryValidators, List.mem_filter, List.mem_append] <;> tauto

/-- Counterexample for C6 as stated: the source's `"archive"` rule set is
built with `apply_validators_to_subdirectories=True`, and its subdirectory
validator list contains neither baseline validator. -/
theorem baseline_missing_in_archive :
    Validator.no_files ∉ archiveValidators.subdirectory_validators ∧
    Validator.non_markdown_files ∉ archiveValidators.subdirectory_validators := by
  decide

/-- One digit character is a digit. -/
theorem digitChar_isDigit (x : Nat) (hx : x ≤ 9) : (Nat.digitChar x).isDigit = true := by
  interval_cases x <;> decide

/-- The leading-digit test of the year pattern, on a digit character. -/
theorem digitChar_leading (x : Nat) (hx : x ≤ 9) :
    (decide ('2' ≤ Nat.digitChar x) && decide (Nat.digitChar x ≤ '9')) = decide (2 ≤ x) := by
  interval_cases x <;> decide

/-- The loop of `yearly_directory_subdirectories_validator`, characterised. -/
theorem yearly_subdirs_fold (names : List String) (d : Directory) :
    names.foldl (fun acc name =>
        if !yearNameMatch name then addError acc (yearlySubdirErrorMsg acc.pathName)
        else acc) d =
      { d with errors := d.errors ++
          (List.replicate ((names.filter (fun s => !yearNameMatch s)).length)
            (yearlySubdirErrorMsg d.pathName)) } := by
  induction names generalizing d with
  | nil => simp
  | cons n ns ih =>
      cases hm : yearNameMatch n with
      | true =>
          simp only [List.foldl_cons]
          have hstep : (if (!yearNameMatch n) = true
              then addError d (yearlySubdirErrorMsg d.pathName) else d) = d := by
            rw [hm]; rfl
          rw [hstep, ih]
          have hfil : List.filter (fun s => !yearNameMatch s) (n :: ns) =
              List.filter (fun s => !yearNameMatch s) ns := by
            rw [List.filter_cons, hm]; rfl
          rw [hfil]
      | false =>
          simp only [List.foldl_cons]
          have hstep : (if (!yearNameMatch n) = true
              then addError d (yearlySubdirErrorMsg d.pathName) else d) =
              addError d (yearlySubdirErrorMsg d.pathName) := by
            rw [hm]; rfl
          rw [hstep, ih]
          have hfil : List.filter (fun s => !yearNameMatch s) (n :: ns) =
              n :: List.filter (fun s => !yearNameMatch s) ns := by
            rw [List.filter_cons, hm]; rfl
          rw [hfil]
          simp [addError, List.replicate_succ, List.append_assoc]

/-- C8 (amended): the year-named-subdirectories validator appends exactly
one error per subdirectory name that fails the pattern `^[2-9][0-9]{3}$`,
leaving the rest of the aggregate untouched; the pattern accepts exactly the
4-digit names whose leading digit is 2–9, i.e. the years 2000–9999. -/
theorem yearly_subdirectories_characterisation :
    (∀ d : Directory, yearly_directory_subdirectories_validator d =
      { d with errors := d.errors ++
          ((d.subdirectoryNames.filter (fun s => !yearNameMatch s)).map
            (fun _ => yearlySubdirErrorMsg d.pathName)) }) ∧
    (∀ a b c e : Nat, a ≤ 9 → b ≤ 9 → c ≤ 9 → e ≤ 9 →
      yearNameMatch (String.mk [Nat.digitChar a, Nat.digitChar b,
        Nat.digitChar c, Nat.digitChar e]) = decide (2 ≤ a)) := by
  constructor
  · intro d
    simp only [yearly_directory_subdirectories_validator]
    rw [yearly_subdirs_fold d.subdirectoryNames d]
    simp
  · intro a b c e ha hb hc he
    show (decide ('2' ≤ Nat.digitChar a) && decide (Nat.digitChar a ≤ '9') &&
        (Nat.digitChar b).isDigit && (Nat.digitChar c).isDigit &&
        (Nat.digitChar e).isDigit) = decide (2 ≤ a)
    rw [digitChar_isDigit b hb, digitChar_isDigit c hc, digitChar_isDigit e he]
    rw [Bool.and_true, Bool.and_true, Bool.and_true]
    exact digitChar_leading a ha

/-- Witness for `yearly_subdirectories_characterisation`: the digit string
`1999` is evaluated by the pattern to `false` (`2 ≤ 1` fails). -/
theorem yearly_subdirectories_characterisation_witness :
    yearNameMatch (String.mk [Nat.digitChar 1, Nat.digitChar 9, Nat.digitChar 9,
      Nat.digitChar 9]) = decide (2 ≤ 1) :=
  yearly_subdirectories_characterisation.2 1 9 9 9 (by decide) (by decide) (by decide)
    (by decide)

/-- Counterexample for C8 as stated: `"1999"` is a 4-digit year within
1000–9999 — accepted by the claim's pattern — yet the source pattern rejects
it and the validator appends an error for it. -/
theorem year_1999_rejected :
    specYearName "1999" = true ∧ yearNameMatch "1999" = false ∧
    (yearly_directory_subdirectories_validator
        { pathName := "words", parentName := "english", subdirectoryNames := ["1999"],
          fileNames := [], file_records := [], file_tags := [], errors := [] }).errors =
      [yearlySubdirErrorMsg "words"] :=
  ⟨by decide, by decide, by decide⟩

/-- If no joined path of length 1..k is mapped, the shortening loop finds
nothing. -/
theorem ruleSearch_eq_none (parts : List String) (k : Nat)
    (h : ∀ j, j ≤ k → 0 < j → lookupDV (joinParts (parts.take j)) = none) :
    ruleSearch parts k = none := by
  induction k with
  | zero => rfl
  | succ n ih =>
      simp only [ruleSearch]
      rw [h (n + 1) le_rfl (Nat.succ_pos n)]
      exact ih (fun j hj hj0 => h j (le_trans hj (Nat.le_succ n)) hj0)

/-- If the joined path of length j is mapped and every strictly longer one
up to k is not, the shortening loop returns that entry with length j. -/
theorem ruleSearch_eq_some (parts : List String) (k : Nat) (j : Nat)
    (dv : DirectoryValidators) (hj0 : 0 < j) (hjk : j ≤ k)
    (hfound : lookupDV (joinParts (parts.take j)) = some dv)
    (habove : ∀ i, i ≤ k → j < i → lookupDV (joinParts (parts.take i)) = none) :
    ruleSearch parts k = some (dv, j) := by
  induction k with
  | zero => omega
  | succ n ih =>
      by_cases heq : j = n + 1
      · subst heq
        simp only [ruleSearch]
        rw [hfound]
      · have hj : j ≤ n := by omega
        simp only [ruleSearch]
        rw [habove (n + 1) le_rfl (by omega)]
        exact ih hj (fun i hik hji => habove i (by omega) hji)

/-- C5: rule resolution tries successively shorter joined path segments; the
first (longest) mapped one wins, its own validators running on an exact
match and its subdirectory validators on a strict-ancestor match; with no
match at any length the default rule set's own validators run, and at the
root the root-only rule set's own validators run.  In particular,
`thoughts/2024/october` — two levels below the registered `thoughts` entry,
itself unregistered at every longer length — selects the `thoughts` entry's
subdirectory validators, not the default rule set. -/
theorem rule_resolution (parts : List String) :
    (parts = [] → selectValidators parts = root_directory_validators.validators) ∧
    (∀ dv j, 0 < j → j ≤ parts.length →
      lookupDV (joinParts (List.take j parts)) = some dv →
      (∀ i, i ≤ parts.length → j < i → lookupDV (joinParts (List.take i parts)) = none) →
      selectValidators parts =
        if j = parts.length then dv.validators else dv.subdirectory_validators) ∧
    ((∀ i, i ≤ parts.length → 0 < i → lookupDV (joinParts (List.take i parts)) = none) →
      parts ≠ [] → selectValidators parts = default_directory_validators.validators) ∧
    (selectValidators ["thoughts", "2024", "october"] =
        thoughtsValidators.subdirectory_validators ∧
      thoughtsValidators.subdirectory_validators ≠
        default_directory_validators.validators) := by
  refine ⟨?_, ?_, ?_, by decide, by decide⟩
  · intro h
    subst h
    rfl
  · intro dv j hj0 hjl hfound habove
    have hne : parts.isEmpty = false := by
      cases parts with
      | nil => simp at hjl; omega
      | cons a l => rfl
    rw [selectValidators, hne]
    simp only [Bool.false_eq_true, if_false]
    rw [ruleSearch_eq_some parts parts.length j dv hj0 hjl hfound habove]
    by_cases hj : j = parts.length
    · rw [if_pos hj]
      simp [hj]
    · rw [if_neg hj]
      have : (j == parts.length) = false := by
        simp [hj]
      simp [this]
  · intro h hne
    have hne' : parts.isEmpty = false := by
      cases parts with
      | nil => exact absurd rfl hne
      | cons a l => rfl
    rw [selectValidators, hne']
    simp only [Bool.false_eq_true, if_false]
    rw [ruleSearch_eq_none parts parts.length (fun j hj hj0 => h j hj hj0)]

/-- Witness for `rule_resolution`: the longest-matching entry for
`thoughts/2024/october` has length 1 (`thoughts`), a strict ancestor, so the
subdirectory validators are selected. -/
theorem rule_resolution_witness :
    selectValidators ["thoughts", "2024", "october"] =
      if 1 = (["thoughts", "2024", "october"] : List String).length
      then thoughtsValidators.validators else thoughtsValidators.subdirectory_validators :=
  (rule_resolution ["thoughts", "2024", "october"]).2.1 thoughtsValidators 1
    (by decide) (by decide) (by decide) (by decide)

/-- `addError` leaves the record list untouched. -/
theorem addError_records (d : Directory) (e : String) :
    (addError d e).file_records = d.file_records := rfl

/-- A fold whose step preserves the record list preserves the record list. -/
theorem foldl_records {α : Type} (g : Directory → α → Directory)
    (hg : ∀ d x, (g d x).file_records = d.file_records) :
    ∀ (l : List α) (d : Directory), (l.foldl g d).file_records = d.file_records := by
  intro l
  induction l with
  | nil => intro d; rfl
  | cons x xs ih => intro d; rw [List.foldl_cons, ih (g d x), hg d x]

/-- A fold whose step preserves the tag list preserves the tag list. -/
theorem foldl_tags {α : Type} (g : Directory → α → Directory)
    (hg : ∀ d x, (g d x).file_tags = d.file_tags) :
    ∀ (l : List α) (d : Directory), (l.foldl g d).file_tags = d.file_tags := by
  intro l
  induction l with
  | nil => intro d; rfl
  | cons x xs ih => intro d; rw [List.foldl_cons, ih (g d x), hg d x]

/-- Validators only append error strings: the record list survives each of
them unchanged. -/
theorem runValidator_records (y : Nat) (v : Validator) (d : Directory) :
    (runValidator y v d).file_records = d.file_records := by
  cases v with
  | no_files =>
      simp only [runValidator, no_files_validator]
      split <;> rfl
  | non_markdown_files =>
      simp only [runValidator, non_markdown_files_validator]
      exact foldl_records _ (fun d x => by split <;> rfl) _ d
  | no_subdirectories =>
      simp only [runValidator, no_subdirectories_validator]
      split <;> rfl
  | root_file =>
      simp only [runValidator, root_file_validator]
      split <;> rfl
  | no_root_file =>
      simp only [runValidator, no_root_file_validator]
      split <;> rfl
  | only_root_file =>
      simp only [runValidator, only_root_file_validator]
      split <;> rfl
  | notes_directory =>
      exact foldl_records _ (fun d x => by split <;> rfl) _ d
  | allowed_file_tags allowed =>
      simp only [runValidator, allowed_file_tags_validator]
      split <;> rfl
  | yarly_current_year =>
      exact foldl_records _ (fun d x => by split <;> rfl) _ d
  | yearly_subdirectories =>
      exact foldl_records _ (fun d x => by split <;> rfl) _ d
  | yearly_parent_year =>
      exact foldl_records _ (fun d x => by split <;> rfl) _ d
  | archive =>
      exact foldl_records _ (fun d x => by split <;> rfl) _ d

/-- Validators only append error strings: the tag list survives each of
them unchanged. -/
theorem runValidator_tags (y : Nat) (v : Validator) (d : Directory) :
    (runValidator y v d).file_tags = d.file_tags := by
  cases v with
  | no_files =>
      simp only [runValidator, no_files_validator]
      split <;> rfl
  | non_markdown_files =>
      simp only [runValidator, non_markdown_files_validator]
      exact foldl_tags _ (fun d x => by split <;> rfl) _ d
  | no_subdirectories =>
      simp only [runValidator, no_subdirectories_validator]
      split <;> rfl
  | root_file =>
      simp only [runValidator, root_file_validator]
      split <;> rfl
  | no_root_file =>
      simp only [runValidator, no_root_file_validator]
      split <;> rfl
  | only_root_file =>
      simp only [runValidator, only_root_file_validator]
      split <;> rfl
  | notes_directory =>
      exact foldl_tags _ (fun d x => by split <;> rfl) _ d
  | allowed_file_tags allowed =>
      simp only [runValidator, allowed_file_tags_validator]
      split <;> rfl
  | yarly_current_year =>
      exact foldl_tags _ (fun d x => by split <;> rfl) _ d
  | yearly_subdirectories =>
      exact foldl_tags _ (fun d x => by split <;> rfl) _ d
  | yearly_parent_year =>
      exact foldl_tags _ (fun d x => by split <;> rfl) _ d
  | archive =>
      exact foldl_tags _ (fun d x => by split <;> rfl) _ d

/-- The whole validator pass preserves the record list. -/
theorem run_validators_records (y : Nat) (parts : List String) (d : Directory) :
    (run_validators y parts d).file_records = d.file_records :=
  foldl_records _ (fun d v => runValidator_records y v d) _ d

/-- The whole validator pass preserves the tag list. -/
theorem run_validators_tags (y : Nat) (parts : List String) (d : Directory) :
    (run_validators y parts d).file_tags = d.file_tags :=
  foldl_tags _ (fun d v => runValidator_tags y v d) _ d

/-- One step of the file loop appends exactly the record its outcome
carries. -/
theorem processFile_records (parts : List String) (acc : WalkDirState) (f : FileEntry) :
    (processFile parts acc f).file_records = acc.file_records ++ recordsOfFiles [f] := by
  cases f with
  | mk name outcome =>
      cases outcome <;>
        simp [processFile, recordsOfFiles] <;>
        split <;> rfl

/-- One step of the file loop appends exactly the tag its outcome carries. -/
theorem processFile_tags (parts : List String) (acc : WalkDirState) (f : FileEntry) :
    (processFile parts acc f).file_tags = acc.file_tags ++ tagsOfFiles [f] := by
  cases f with
  | mk name outcome =>
      cases outcome <;>
        simp [processFile, tagsOfFiles] <;>
        split <;> rfl

/-- The file loop accumulates exactly the records of the processed files. -/
theorem processFiles_foldl_records (parts : List String) (fs : List FileEntry) :
    ∀ acc : WalkDirState,
      (fs.foldl (processFile parts) acc).file_records = acc.file_records ++ recordsOfFiles fs := by
  induction fs with
  | nil => intro acc; simp [recordsOfFiles]
  | cons f fs ih =>
      intro acc
      rw [List.foldl_cons, ih (processFile parts acc f), processFile_records]
      have : recordsOfFiles (f :: fs) = recordsOfFiles [f] ++ recordsOfFiles fs := by
        simp only [recordsOfFiles]
        rw [← List.filterMap_append]
        rfl
      rw [this, List.append_assoc]

/-- The file loop accumulates exactly the tags of the processed files. -/
theorem processFiles_foldl_tags (parts : List String) (fs : List FileEntry) :
    ∀ acc : WalkDirState,
      (fs.foldl (processFile parts) acc).file_tags = acc.file_tags ++ tagsOfFiles fs := by
  induction fs with
  | nil => intro acc; simp [tagsOfFiles]
  | cons f fs ih =>
      intro acc
      rw [List.foldl_cons, ih (processFile parts acc f), processFile_tags]
      have : tagsOfFiles (f :: fs) = tagsOfFiles [f] ++ tagsOfFiles fs := by
        simp only [tagsOfFiles]
        rw [← List.filterMap_append]
        rfl
      rw [this, List.append_assoc]

/-- The file loop, started empty, collects exactly the parsed records. -/
theorem processFiles_records (parts : List String) (fs : List FileEntry) :
    (processFiles parts fs).file_records = recordsOfFiles fs := by
  rw [processFiles, processFiles_foldl_records]
  rfl

/-- The file loop, started empty, collects exactly the observed tags. -/
theorem processFiles_tags (parts : List String) (fs : List FileEntry) :
    (processFiles parts fs).file_tags = tagsOfFiles fs := by
  rw [processFiles, processFiles_foldl_tags]
  rfl

/-- The directory pass hands every parsed record through, validators
notwithstanding. -/
theorem collectDir_records (y : Nat) (dirName pn : String) (parts : List String)
    (fs : List FileEntry) (subdirNames : List String) :
    (collectDir y dirName pn parts fs subdirNames).1.file_records = recordsOfFiles fs := by
  simp only [collectDir]
  rw [run_validators_records]
  exact processFiles_records parts fs

mutual

/-- The records component of the walk is exactly the parser's record
extraction over the tree, independent of validation. -/
theorem walkTree_records (y : Nat) (pn : String) (parts : List String) :
    ∀ t : DirTree, (walkTree y pn parts t).1 = treeRecords t
  | .node n fs subs => by
      simp only [walkTree, treeRecords]
      rw [collectDir_records, walkSubs_records y n parts subs]

/-- The records component of the sibling walk. -/
theorem walkSubs_records (y : Nat) (pn : String) (parts : List String) :
    ∀ ts : List DirTree, (walkSubs y pn parts ts).1 = treeRecordsList ts
  | [] => rfl
  | t :: ts => by
      simp only [walkSubs, treeRecordsList]
      rw [walkTree_records y pn (parts ++ [t.name]) t, walkSubs_records y pn parts ts]

end

/-- C1: any error anywhere in the walk voids every record — `collect_files`
returns an empty record list whenever the accumulated error list is
non-empty, and returns every record extracted from every visited directory
when it is empty. -/
theorem all_or_nothing_gate (y : Nat) (pn : String) (tree : DirTree) :
    ((collect_files y pn tree).1.errors ≠ [] → (collect_files y pn tree).1.records = []) ∧
    ((collect_files y pn tree).1.errors = [] →
      (collect_files y pn tree).1.records = treeRecords tree) := by
  constructor
  · intro h
    simp only [collect_files] at h ⊢
    rw [if_neg]
    intro hc
    rw [List.isEmpty_iff] at hc
    exact h hc
  · intro h
    simp only [collect_files] at h ⊢
    rw [if_pos]
    · exact walkTree_records y pn [] tree
    · rw [List.isEmpty_iff]
      exact h

/-- Witness for `all_or_nothing_gate`: a tree that validates cleanly yields
exactly its parsed records. -/
theorem all_or_nothing_gate_witness :
    (collect_files 2024 "home" cleanTree).1.errors = [] ∧
    (collect_files 2024 "home" cleanTree).1.records = treeRecords cleanTree :=
  ⟨by decide, (all_or_nothing_gate 2024 "home" cleanTree).2 (by decide)⟩

/-- C9: the walk does remove a `.DS_Store` file from disk, but — lacking a
`continue` — still hands it to `File.match`, so it contributes a structural
error (and, through the non-markdown baseline validator, a second one) and
thereby voids all records of the walk, contradicting the claim that it is
skipped without a record or an error. -/
theorem ds_store_not_skipped :
    (collect_files 2024 "home" dsStoreTree).2 = [".DS_Store"] ∧
    (collect_files 2024 "home" dsStoreTree).1.errors =
      [pyRepr ".DS_Store" ++ ": File \x27.DS_Store\x27 is not a .md file",
       "Directory " ++ pyRepr "notes" ++ " contains non-markdown files."] ∧
    (collect_files 2024 "home" dsStoreTree).1.records = [] :=
  ⟨by decide, by decide, by decide⟩

/-- C10: a recognised file whose parse fails still contributes its
`FILE_TAG` — appended before `file.parse()` is attempted — to the
directory's tag list, while contributing no record; the tag is visible to
the validators run over the directory aggregate. -/
theorem failed_parse_keeps_tag (y : Nat) (dirName pn : String)
    (parts subdirNames : List String) (fs₁ fs₂ : List FileEntry)
    (name tag msg : String) :
    (processFiles parts (fs₁ ++ [⟨name, .matchedFail tag msg⟩] ++ fs₂)).file_tags =
      tagsOfFiles fs₁ ++ [tag] ++ tagsOfFiles fs₂ ∧
    (processFiles parts (fs₁ ++ [⟨name, .matchedFail tag msg⟩] ++ fs₂)).file_records =
      recordsOfFiles fs₁ ++ recordsOfFiles fs₂ ∧
    tag ∈ (collectDir y dirName pn parts (fs₁ ++ [⟨name, .matchedFail tag msg⟩] ++ fs₂)
        subdirNames).1.file_tags := by
  have htags : (processFiles parts (fs₁ ++ [⟨name, .matchedFail tag msg⟩] ++ fs₂)).file_tags =
      tagsOfFiles fs₁ ++ [tag] ++ tagsOfFiles fs₂ := by
    rw [processFiles_tags]
    simp [tagsOfFiles, List.filterMap_append]
  refine ⟨htags, ?_, ?_⟩
  · rw [processFiles_records]
    simp [recordsOfFiles, List.filterMap_append]
  · simp only [collectDir]
    rw [run_validators_tags]
    simp only
    rw [htags]
    simp

/-- Witness for `identity_error_characterisation`: a `FileRecord` with a
truthy determinant `path` computes the hash of the canonical
concatenation. -/
theorem identity_error_characterisation_witness :
    recordId (RecordClass.mk "FileRecord" ["path"]) none
        [("path", PyValue.pyPath "notes/a.md")] =
      Except.ok (generate_uuid (String.intercalate "_" (determinant_values
        (RecordClass.mk "FileRecord" ["path"]) [("path", PyValue.pyPath "notes/a.md")]))) :=
  (identity_error_characterisation (RecordClass.mk "FileRecord" ["path"])
      [("path", PyValue.pyPath "notes/a.md")]).2
    ⟨"path", by decide, PyValue.pyPath "notes/a.md", by decide, by decide⟩

/-- `retrieve` misses exactly when no entry carries the id. -/
theorem retrieve_eq_none_iff (l : List DBRecord) (x : String) :
    retrieve l x = none ↔ ∀ r ∈ l, r.id_ ≠ x := by
  simp [retrieve, List.find?_eq_none]

/-- A `retrieve` hit is a member carrying the id. -/
theorem retrieve_mem {l : List DBRecord} {x : String} {r : DBRecord}
    (h : retrieve l x = some r) : r ∈ l ∧ r.id_ = x := by
  refine ⟨List.mem_of_find?_eq_some h, ?_⟩
  have hp := List.find?_some h
  simpa using hp

/-- `retrieve` distributes over concatenation. -/
theorem retrieve_append (l₁ l₂ : List DBRecord) (x : String) :
    retrieve (l₁ ++ l₂) x = (retrieve l₁ x).or (retrieve l₂ x) := by
  simp [retrieve, List.find?_append]

/-- Appending a record with a different id does not change a lookup. -/
theorem retrieve_append_single (l : List DBRecord) (item : DBRecord) (x : String)
    (hx : x ≠ item.id_) : retrieve (l ++ [item]) x = retrieve l x := by
  rw [retrieve_append]
  have h1 : retrieve [item] x = none := by
    simp [retrieve, Ne.symm hx]
  rw [h1]
  cases retrieve l x <;> rfl

/-- Replacing the record at a different id does not change a lookup. -/
theorem retrieve_updateById (l : List DBRecord) (item : DBRecord) (x : String)
    (hx : x ≠ item.id_) : retrieve (updateById l item) x = retrieve l x := by
  induction l with
  | nil => rfl
  | cons r rs ih =>
      simp only [updateById, List.map_cons]
      by_cases hr : r.id_ = item.id_
      · rw [if_pos (by simp [hr])]
        rw [retrieve, List.find?_cons_of_neg _ (by simp [Ne.symm hx]),
          retrieve, List.find?_cons_of_neg _ (by simp [hr, Ne.symm hx])]
        exact ih
      · rw [if_neg (by simp [hr])]
        by_cases hrx : r.id_ = x
        · rw [retrieve, List.find?_cons_of_pos _ (by simp [hrx]),
            retrieve, List.find?_cons_of_pos _ (by simp [hrx])]
        · rw [retrieve, List.find?_cons_of_neg _ (by simp [hrx]),
            retrieve, List.find?_cons_of_neg _ (by simp [hrx])]
          exact ih

/-- Deleting the entry at a different id does not change a lookup. -/
theorem retrieve_deleteById (l : List DBRecord) (y x : String) (hx : x ≠ y) :
    retrieve (deleteById l y) x = retrieve l x := by
  induction l with
  | nil => rfl
  | cons r rs ih =>
      simp only [deleteById, List.filter_cons]
      by_cases hry : r.id_ = y
      · rw [if_neg (by simp [hry])]
        have hr2 : retrieve (r :: rs) x = retrieve rs x := by
          rw [retrieve, List.find?_cons_of_neg _ (by simp [hry, Ne.symm hx])]
          rfl
        rw [hr2]
        exact ih
      · rw [if_pos (by simp [hry])]
        by_cases hrx : r.id_ = x
        · rw [retrieve, List.find?_cons_of_pos _ (by simp [hrx]),
            retrieve, List.find?_cons_of_pos _ (by simp [hrx])]
        · rw [retrieve, List.find?_cons_of_neg _ (by simp [hrx]),
            retrieve, List.find?_cons_of_neg _ (by simp [hrx])]
          exact ih

/-- On a duplicate-free collection, membership determines the lookup. -/
theorem retrieve_of_mem_nodup {l : List DBRecord} (hnd : (idsOf l).Nodup)
    {r : DBRecord} (hr : r ∈ l) : retrieve l r.id_ = some r := by
  induction l with
  | nil => cases hr
  | cons a rs ih =>
      rw [idsOf, List.map_cons, List.nodup_cons] at hnd
      rcases List.mem_cons.mp hr with h | h
      · subst h
        rw [retrieve, List.find?_cons_of_pos _ (by simp)]
      · have hne : a.id_ ≠ r.id_ := by
          intro hc
          exact hnd.1 (hc ▸ List.mem_map_of_mem (fun q => q.id_) h)
        rw [retrieve, List.find?_cons_of_neg _ (by simp [hne])]
        exact ih hnd.2 h

/-- `!=` on ids is symmetric. -/
theorem id_bne_symm (a b : String) : (a != b) = (b != a) := by
  by_cases h : a = b
  · subst h; rfl
  · simp [bne, h, Ne.symm h]

/-- `fileRecordEq` is reflexive. -/
theorem fileRecordEq_refl (a : DBRecord) : fileRecordEq a a = true := by
  simp [fileRecordEq]

/-- The loop replacement preserves the entry's id. -/
theorem reconcileEntry_id (store items : List DBRecord) (r : DBRecord) :
    (reconcileEntry store items r).id_ = r.id_ := by
  rw [reconcileEntry]
  cases hf : items.find? (fun i => i.id_ == r.id_) with
  | none => rfl
  | some i =>
      have hid : i.id_ = r.id_ := by
        have := List.find?_some hf
        simpa using this
      cases hr : retrieve store i.id_ with
      | none => simp [hr]
      | some e =>
          rw [hid] at hr
          by_cases heq : fileRecordEq i e = true
          · simp [hr, heq, hid]
          · simp [hr, heq, hid]

/-- A record absent from the store heads the `saved` partition. -/
theorem savedSpec_cons_none (store : List DBRecord) (i : DBRecord)
    (rest : List DBRecord) (hr : retrieve store i.id_ = none) :
    savedSpec store (i :: rest) = i :: savedSpec store rest := by
  simp [savedSpec, List.filter_cons, hr]

/-- A record present in the store does not enter the `saved` partition. -/
theorem savedSpec_cons_some (store : List DBRecord) (i e : DBRecord)
    (rest : List DBRecord) (hr : retrieve store i.id_ = some e) :
    savedSpec store (i :: rest) = savedSpec store rest := by
  simp [savedSpec, List.filter_cons, hr]

/-- A record absent from the store does not enter the `updated` partition. -/
theorem updatedSpec_cons_none (store : List DBRecord) (i : DBRecord)
    (rest : List DBRecord) (hr : retrieve store i.id_ = none) :
    updatedSpec store (i :: rest) = updatedSpec store rest := by
  simp [updatedSpec, List.filter_cons, hr]

/-- A present-but-equal record does not enter the `updated` partition. -/
theorem updatedSpec_cons_eq (store : List DBRecord) (i e : DBRecord)
    (rest : List DBRecord) (hr : retrieve store i.id_ = some e)
    (heq : fileRecordEq i e = true) :
    updatedSpec store (i :: rest) = updatedSpec store rest := by
  simp [updatedSpec, List.filter_cons, hr, heq]

/-- A present-and-differing record heads the `updated` partition. -/
theorem updatedSpec_cons_ne (store : List DBRecord) (i e : DBRecord)
    (rest : List DBRecord) (hr : retrieve store i.id_ = some e)
    (heq : fileRecordEq i e = false) :
    updatedSpec store (i :: rest) = i :: updatedSpec store rest := by
  simp [updatedSpec, List.filter_cons, hr, heq]

/-- A record absent from the store does not enter the `unchanged` partition. -/
theorem unchangedSpec_cons_none (store : List DBRecord) (i : DBRecord)
    (rest : List DBRecord) (hr : retrieve store i.id_ = none) :
    unchangedSpec store (i :: rest) = unchangedSpec store rest := by
  simp [unchangedSpec, List.filter_cons, hr]

/-- A present-but-equal record heads the `unchanged` partition. -/
theorem unchangedSpec_cons_eq (store : List DBRecord) (i e : DBRecord)
    (rest : List DBRecord) (hr : retrieve store i.id_ = some e)
    (heq : fileRecordEq i e = true) :
    unchangedSpec store (i :: rest) = i :: unchangedSpec store rest := by
  simp [unchangedSpec, List.filter_cons, hr, heq]

/-- A present-and-differing record does not enter the `unchanged` partition. -/
theorem unchangedSpec_cons_ne (store : List DBRecord) (i e : DBRecord)
    (rest : List DBRecord) (hr : retrieve store i.id_ = some e)
    (heq : fileRecordEq i e = false) :
    unchangedSpec store (i :: rest) = unchangedSpec store rest := by
  simp [unchangedSpec, List.filter_cons, hr, heq]

/-- A record matching no snapshot entry does not affect the leftover
snapshot. -/
theorem snapAfter_cons_absent (i : DBRecord) (rest snap : List DBRecord)
    (habs : ∀ r ∈ snap, r.id_ ≠ i.id_) :
    snapAfter (i :: rest) snap = snapAfter rest snap := by
  apply List.filter_congr
  intro r hr
  simp [List.all_cons, Ne.symm (habs r hr)]

/-- Deleting the matched entry from the snapshot commutes with the leftover
computation. -/
theorem snapAfter_cons_delete (i : DBRecord) (rest snap : List DBRecord) :
    snapAfter rest (deleteById snap i.id_) = snapAfter (i :: rest) snap := by
  simp only [snapAfter, deleteById, List.filter_filter]
  apply List.filter_congr
  intro r hr
  rw [List.all_cons, id_bne_symm i.id_ r.id_, Bool.and_comm]

/-- Inserting a fresh record commutes the live-collection description by
one incoming step. -/
theorem liveAfter_append_new (store rest live : List DBRecord) (i : DBRecord)
    (hr : retrieve store i.id_ = none)
    (hlivenone : ∀ r ∈ live, r.id_ ≠ i.id_)
    (hid_ne : ∀ j ∈ rest, j.id_ ≠ i.id_) :
    liveAfter store rest (live ++ [i]) = liveAfter store (i :: rest) live := by
  simp only [liveAfter, List.map_append, List.map_cons, List.map_nil]
  have hgi : reconcileEntry store rest i = i := by
    rw [reconcileEntry]
    rw [List.find?_eq_none.mpr (fun j hj => by simp [hid_ne j hj])]
  have hmap : live.map (reconcileEntry store rest) =
      live.map (reconcileEntry store (i :: rest)) := by
    apply List.map_congr_left
    intro r hrl
    rw [reconcileEntry, reconcileEntry,
      List.find?_cons_of_neg _ (by simp [Ne.symm (hlivenone r hrl)])]
  rw [hgi, hmap, savedSpec_cons_none store i rest hr]
  simp

/-- An unchanged record commutes the live-collection description by one
incoming step. -/
theorem liveAfter_unchanged (store rest live : List DBRecord) (i e : DBRecord)
    (hr : retrieve store i.id_ = some e) (heq : fileRecordEq i e = true)
    (hid_ne : ∀ j ∈ rest, j.id_ ≠ i.id_) :
    liveAfter store rest live = liveAfter store (i :: rest) live := by
  simp only [liveAfter]
  rw [savedSpec_cons_some store i e rest hr]
  congr 1
  apply List.map_congr_left
  intro r hrl
  by_cases hri : r.id_ = i.id_
  · rw [reconcileEntry, reconcileEntry,
      List.find?_cons_of_pos _ (by simp [hri]),
      List.find?_eq_none.mpr (fun j hj => by simp [hri, hid_ne j hj])]
    simp [hr, heq]
  · rw [reconcileEntry, reconcileEntry,
      List.find?_cons_of_neg _ (by simp [Ne.symm hri])]

/-- An updated record commutes the live-collection description by one
incoming step. -/
theorem liveAfter_updated (store rest live : List DBRecord) (i e : DBRecord)
    (hr : retrieve store i.id_ = some e) (heq : fileRecordEq i e = false)
    (hid_ne : ∀ j ∈ rest, j.id_ ≠ i.id_) :
    liveAfter store rest (updateById live i) = liveAfter store (i :: rest) live := by
  simp only [liveAfter, updateById, List.map_map]
  rw [savedSpec_cons_some store i e rest hr]
  congr 1
  apply List.map_congr_left
  intro r hrl
  simp only [Function.comp]
  by_cases hri : r.id_ = i.id_
  · rw [if_pos (by simp [hri])]
    rw [reconcileEntry, reconcileEntry,
      List.find?_eq_none.mpr (fun j hj => by simp [hid_ne j hj]),
      List.find?_cons_of_pos _ (by simp [hri])]
    simp [hr, heq]
  · rw [if_neg (by simp [hri])]
    rw [reconcileEntry, reconcileEntry,
      List.find?_cons_of_neg _ (by simp [Ne.symm hri])]

/-- The `for item in items` loop of `save_update_delete`, characterised
against the pre-run store: with duplicate-free incoming ids, and live and
snapshot lookups agreeing with the store on those ids, the loop succeeds
and accumulates exactly the specified partitions. -/
theorem sudLoop_characterisation (items : List DBRecord) :
    ∀ (store live snap saved updated unchanged : List DBRecord),
      (idsOf items).Nodup →
      (∀ i ∈ items, retrieve live i.id_ = retrieve store i.id_) →
      (∀ i ∈ items, retrieve snap i.id_ = retrieve store i.id_) →
      sudLoop ⟨live, snap, saved, updated, unchanged⟩ items =
        some ⟨liveAfter store items live, snapAfter items snap,
              saved ++ savedSpec store items,
              updated ++ updatedSpec store items,
              unchanged ++ unchangedSpec store items⟩ := by
  induction items with
  | nil =>
      intro store live snap saved updated unchanged hnd hlive hsnap
      have h1 : liveAfter store [] live = live := by
        have hmap : live.map (reconcileEntry store []) = live.map id :=
          List.map_congr_left (fun r _ => by rw [reconcileEntry]; rfl)
        simp [liveAfter, savedSpec, hmap]
      have h2 : snapAfter [] snap = snap := by
        simp [snapAfter]
      simp [sudLoop, h1, h2, savedSpec, updatedSpec, unchangedSpec]
  | cons i rest ih =>
      intro store live snap saved updated unchanged hnd hlive hsnap
      have hlive_i := hlive i (List.mem_cons_self i rest)
      have hsnap_i := hsnap i (List.mem_cons_self i rest)
      rw [idsOf, List.map_cons, List.nodup_cons] at hnd
      have hid_ne : ∀ j ∈ rest, j.id_ ≠ i.id_ := by
        intro j hj hc
        exact hnd.1 (hc ▸ List.mem_map_of_mem (fun q => q.id_) hj)
      have hnd_rest : (idsOf rest).Nodup := hnd.2
      have hlive_rest : ∀ j ∈ rest, retrieve live j.id_ = retrieve store j.id_ :=
        fun j hj => hlive j (List.mem_cons_of_mem i hj)
      have hsnap_rest : ∀ j ∈ rest, retrieve snap j.id_ = retrieve store j.id_ :=
        fun j hj => hsnap j (List.mem_cons_of_mem i hj)
      simp only [sudLoop, sudProcess]
      cases hr : retrieve store i.id_ with
      | none =>
          simp only [hlive_i, hr]
          rw [ih store (live ++ [i]) snap (saved ++ [i]) updated unchanged hnd_rest
            (fun j hj => by
              rw [retrieve_append_single live i j.id_ (hid_ne j hj)]
              exact hlive_rest j hj)
            hsnap_rest]
          rw [liveAfter_append_new store rest live i hr
              ((retrieve_eq_none_iff live i.id_).mp (hlive_i.trans hr)) hid_ne,
            snapAfter_cons_absent i rest snap
              ((retrieve_eq_none_iff snap i.id_).mp (hsnap_i.trans hr)),
            savedSpec_cons_none store i rest hr,
            updatedSpec_cons_none store i rest hr,
            unchangedSpec_cons_none store i rest hr]
          simp [List.append_assoc]
      | some e =>
          simp only [hlive_i, hsnap_i, hr, Option.isSome_some, if_true]
          cases heq : fileRecordEq i e with
          | true =>
              simp only [heq, if_true]
              rw [ih store live (deleteById snap i.id_) saved updated (unchanged ++ [i])
                hnd_rest hlive_rest
                (fun j hj => by
                  rw [retrieve_deleteById snap i.id_ j.id_ (hid_ne j hj)]
                  exact hsnap_rest j hj)]
              rw [liveAfter_unchanged store rest live i e hr heq hid_ne,
                snapAfter_cons_delete i rest snap,
                savedSpec_cons_some store i e rest hr,
                updatedSpec_cons_eq store i e rest hr heq,
                unchangedSpec_cons_eq store i e rest hr heq]
              simp [List.append_assoc]
          | false =>
              simp only [heq, Bool.false_eq_true, if_false]
              rw [ih store (updateById live i) (deleteById snap i.id_) saved
                (updated ++ [i]) unchanged hnd_rest
                (fun j hj => by
                  rw [retrieve_updateById live i j.id_ (hid_ne j hj)]
                  exact hlive_rest j hj)
                (fun j hj => by
                  rw [retrieve_deleteById snap i.id_ j.id_ (hid_ne j hj)]
                  exact hsnap_rest j hj)]
              rw [liveAfter_updated store rest live i e hr heq hid_ne,
                snapAfter_cons_delete i rest snap,
                savedSpec_cons_some store i e rest hr,
                updatedSpec_cons_ne store i e rest hr heq,
                unchangedSpec_cons_ne store i e rest hr heq]
              simp [List.append_assoc]

/-- `save_update_delete` on a duplicate-free incoming id sequence succeeds
and returns exactly the four specified partitions, the collection ending as
the reconciled entries minus the deleted leftovers. -/
theorem save_update_delete_eq (store items : List DBRecord)
    (hnd : (idsOf items).Nodup) :
    save_update_delete store items =
      some { saved := savedSpec store items
             updated := updatedSpec store items
             deleted := deletedSpec store items
             unchanged := unchangedSpec store items
             finalStore := (deletedSpec store items).foldl
               (fun l r => deleteById l r.id_) (liveAfter store items store) } := by
  rw [save_update_delete,
    sudLoop_characterisation items store store store [] [] [] hnd
      (fun i _ => rfl) (fun i _ => rfl)]
  simp only [List.nil_append]
  rfl

/-- Ids of a filtered record list are ids of the list. -/
theorem idsOf_filter_subset (p : DBRecord → Bool) (l : List DBRecord) (x : String) :
    x ∈ idsOf (l.filter p) → x ∈ idsOf l := by
  intro hx
  simp only [idsOf, List.mem_map, List.mem_filter] at hx ⊢
  obtain ⟨r, ⟨h1, _⟩, h3⟩ := hx
  exact ⟨r, h1, h3⟩

/-- No deleted id is an incoming id. -/
theorem deletedSpec_ids_not_incoming (store items : List DBRecord) (x : String)
    (hx : x ∈ idsOf (deletedSpec store items)) : x ∉ idsOf items := by
  intro hxi
  simp only [idsOf, deletedSpec, List.mem_map, List.mem_filter] at hx hxi
  obtain ⟨r, ⟨hrs, hall⟩, hrx⟩ := hx
  obtain ⟨i, hii, hix⟩ := hxi
  have hne := List.all_eq_true.mp hall i hii
  rw [hix, hrx] at hne
  simp at hne

/-- C2: on pairwise-distinct incoming ids, `save_update_delete` succeeds and
returns four partitions that are pairwise disjoint by id, whose ids jointly
cover exactly the persisted ids together with the incoming ids, and whose
`deleted` partition carries every persisted id not re-observed among the
incoming ones. -/
theorem sud_partition (store items : List DBRecord)
    (hs : (idsOf store).Nodup) (hi : (idsOf items).Nodup) :
    ∃ res, save_update_delete store items = some res ∧
      ((idsOf res.saved).Disjoint (idsOf res.updated) ∧
       (idsOf res.saved).Disjoint (idsOf res.deleted) ∧
       (idsOf res.saved).Disjoint (idsOf res.unchanged) ∧
       (idsOf res.updated).Disjoint (idsOf res.deleted) ∧
       (idsOf res.updated).Disjoint (idsOf res.unchanged) ∧
       (idsOf res.deleted).Disjoint (idsOf res.unchanged)) ∧
      (∀ x, (x ∈ idsOf res.saved ∨ x ∈ idsOf res.updated ∨ x ∈ idsOf res.deleted ∨
          x ∈ idsOf res.unchanged) ↔ (x ∈ idsOf store ∨ x ∈ idsOf items)) ∧
      (∀ r ∈ store, r.id_ ∉ idsOf items → r.id_ ∈ idsOf res.deleted) := by
  have hi' : (items.map (fun r => r.id_)).Nodup := hi
  have hinj : ∀ i₁ ∈ items, ∀ i₂ ∈ items, i₁.id_ = i₂.id_ → i₁ = i₂ := by
    intro a ha b hb hab
    exact List.inj_on_of_nodup_map hi' ha hb hab
  have hdisj3 : ∀ (p q : DBRecord → Bool), (∀ i ∈ items, ¬(p i = true ∧ q i = true)) →
      (idsOf (items.filter p)).Disjoint (idsOf (items.filter q)) := by
    intro p q hpq x hxp hxq
    simp only [idsOf, List.mem_map, List.mem_filter] at hxp hxq
    obtain ⟨i₁, ⟨hm₁, hp₁⟩, hx₁⟩ := hxp
    obtain ⟨i₂, ⟨hm₂, hp₂⟩, hx₂⟩ := hxq
    have : i₁ = i₂ := hinj i₁ hm₁ i₂ hm₂ (by rw [hx₁, hx₂])
    subst this
    exact hpq i₁ hm₁ ⟨hp₁, hp₂⟩
  have hdel_completion : ∀ r ∈ store, r.id_ ∉ idsOf items →
      r.id_ ∈ idsOf (deletedSpec store items) := by
    intro r hrs hni
    simp only [idsOf, deletedSpec, List.mem_map, List.mem_filter]
    refine ⟨r, ⟨hrs, List.all_eq_true.mpr ?_⟩, rfl⟩
    intro i hii
    simp only [bne_iff_ne, ne_eq]
    intro hc
    exact hni (by simp only [idsOf, List.mem_map]; exact ⟨i, hii, hc⟩)
  have hitems_mem : ∀ i ∈ items,
      i.id_ ∈ idsOf (savedSpec store items) ∨
      i.id_ ∈ idsOf (updatedSpec store items) ∨
      i.id_ ∈ idsOf (unchangedSpec store items) := by
    intro i hii
    cases hr : retrieve store i.id_ with
    | none =>
        left
        simp only [idsOf, savedSpec, List.mem_map, List.mem_filter]
        exact ⟨i, ⟨hii, by simp [hr]⟩, rfl⟩
    | some e =>
        cases heq : fileRecordEq i e with
        | true =>
            right; right
            simp only [idsOf, unchangedSpec, List.mem_map, List.mem_filter]
            exact ⟨i, ⟨hii, by simp [hr, heq]⟩, rfl⟩
        | false =>
            right; left
            simp only [idsOf, updatedSpec, List.mem_map, List.mem_filter]
            exact ⟨i, ⟨hii, by simp [hr, heq]⟩, rfl⟩
  refine ⟨_, save_update_delete_eq store items hi, ⟨?_, ?_, ?_, ?_, ?_, ?_⟩, ?_, ?_⟩
  · exact hdisj3 _ _ (fun i hii => by
      rintro ⟨h1, h2⟩
      cases hr : retrieve store i.id_ with
      | none => rw [hr] at h2; simp at h2
      | some e => rw [hr] at h1; simp at h1)
  · intro x hx hxd
    exact deletedSpec_ids_not_incoming store items x hxd (idsOf_filter_subset _ items x hx)
  · exact hdisj3 _ _ (fun i hii => by
      rintro ⟨h1, h2⟩
      cases hr : retrieve store i.id_ with
      | none => rw [hr] at h2; simp at h2
      | some e => rw [hr] at h1; simp at h1)
  · intro x hx hxd
    exact deletedSpec_ids_not_incoming store items x hxd (idsOf_filter_subset _ items x hx)
  · exact hdisj3 _ _ (fun i hii => by
      rintro ⟨h1, h2⟩
      cases hr : retrieve store i.id_ with
      | none => rw [hr] at h1; simp at h1
      | some e => rw [hr] at h1 h2; simp at h1 h2; rw [h1] at h2; cases h2)
  · intro x hxd hx
    exact deletedSpec_ids_not_incoming store items x hxd (idsOf_filter_subset _ items x hx)
  · intro x
    constructor
    · rintro (hx | hx | hx | hx)
      · exact Or.inr (idsOf_filter_subset _ items x hx)
      · exact Or.inr (idsOf_filter_subset _ items x hx)
      · exact Or.inl (idsOf_filter_subset _ store x hx)
      · exact Or.inr (idsOf_filter_subset _ items x hx)
    · rintro (hx | hx)
      · by_cases hxi : x ∈ idsOf items
        · simp only [idsOf, List.mem_map] at hxi
          obtain ⟨i, hii, hix⟩ := hxi
          rcases hitems_mem i hii with h | h | h
          · exact Or.inl (hix ▸ h)
          · exact Or.inr (Or.inl (hix ▸ h))
          · exact Or.inr (Or.inr (Or.inr (hix ▸ h)))
        · simp only [idsOf, List.mem_map] at hx
          obtain ⟨r, hrs, hrx⟩ := hx
          exact Or.inr (Or.inr (Or.inl (hrx ▸ hdel_completion r hrs (hrx ▸ hxi))))
      · simp only [idsOf, List.mem_map] at hx
        obtain ⟨i, hii, hix⟩ := hx
        rcases hitems_mem i hii with h | h | h
        · exact Or.inl (hix ▸ h)
        · exact Or.inr (Or.inl (hix ▸ h))
        · exact Or.inr (Or.inr (Or.inr (hix ▸ h)))
  · exact hdel_completion

/-- The trailing delete loop of `save_update_delete` removes exactly the
entries whose id a leftover carries. -/
theorem foldl_deleteById (del : List DBRecord) :
    ∀ l : List DBRecord, del.foldl (fun acc r => deleteById acc r.id_) l =
      l.filter (fun x => del.all (fun r => x.id_ != r.id_)) := by
  induction del with
  | nil => intro l; simp
  | cons r₀ del ih =>
      intro l
      rw [List.foldl_cons, ih (deleteById l r₀.id_)]
      simp only [deleteById, List.filter_filter]
      apply List.filter_congr
      intro x hx
      rw [List.all_cons, Bool.and_comm]

/-- Ids distribute over concatenation. -/
theorem idsOf_append (a b : List DBRecord) : idsOf (a ++ b) = idsOf a ++ idsOf b := by
  simp [idsOf]

/-- The reconciliation replacement keeps the id sequence of the collection. -/
theorem idsOf_map_reconcile (store items l : List DBRecord) :
    idsOf (l.map (reconcileEntry store items)) = idsOf l := by
  simp only [idsOf, List.map_map]
  apply List.map_congr_left
  intro r _
  simp only [Function.comp]
  exact reconcileEntry_id store items r

/-- Ids of a filtered list form a sublist of the ids. -/
theorem idsOf_filter_sublist (p : DBRecord → Bool) (l : List DBRecord) :
    (idsOf (l.filter p)).Sublist (idsOf l) := by
  simp only [idsOf]
  exact (List.filter_sublist l).map (fun r => r.id_)

/-- After a run on duplicate-free ids, the collection still has
duplicate-free ids. -/
theorem liveAfter_ids_nodup (store items : List DBRecord)
    (hs : (idsOf store).Nodup) (hi : (idsOf items).Nodup) :
    (idsOf (liveAfter store items store)).Nodup := by
  rw [liveAfter, idsOf_append, idsOf_map_reconcile, List.nodup_append]
  refine ⟨hs, (idsOf_filter_sublist _ items).nodup hi, ?_⟩
  intro x hxs hxsaved
  simp only [idsOf, savedSpec, List.mem_map, List.mem_filter] at hxsaved hxs
  obtain ⟨i, ⟨hii, hnone⟩, hix⟩ := hxsaved
  obtain ⟨r, hrs, hrx⟩ := hxs
  rw [Option.isNone_iff_eq_none] at hnone
  exact (retrieve_eq_none_iff store i.id_).mp hnone r hrs (by rw [hrx, hix])

/-- The reconciled collection keeps duplicate-free ids. -/
theorem finalStoreSpec_ids_nodup (store items : List DBRecord)
    (hs : (idsOf store).Nodup) (hi : (idsOf items).Nodup) :
    (idsOf (finalStoreSpec store items)).Nodup :=
  (idsOf_filter_sublist _ _).nodup (liveAfter_ids_nodup store items hs hi)

/-- Every incoming record is found, `FileRecord`-equal, in the reconciled
collection. -/
theorem finalStoreSpec_retrieve (store items : List DBRecord)
    (hs : (idsOf store).Nodup) (hi : (idsOf items).Nodup) :
    ∀ i ∈ items, ∃ e, retrieve (finalStoreSpec store items) i.id_ = some e ∧
      fileRecordEq i e = true := by
  intro i hii
  have hnd₂ := finalStoreSpec_ids_nodup store items hs hi
  cases hr : retrieve store i.id_ with
  | some e =>
      obtain ⟨hes, heid⟩ := retrieve_mem hr
      have hkeep : ((deletedSpec store items).all
          (fun r => (reconcileEntry store items e).id_ != r.id_)) = true := by
        rw [List.all_eq_true]
        intro r hrd
        simp only [deletedSpec, List.mem_filter] at hrd
        rw [reconcileEntry_id, bne_iff_ne, ne_eq]
        intro hc
        have := List.all_eq_true.mp hrd.2 i hii
        rw [heid] at hc
        simp [hc] at this
      have hmem : reconcileEntry store items e ∈ finalStoreSpec store items := by
        rw [finalStoreSpec]
        rw [List.mem_filter]
        refine ⟨?_, hkeep⟩
        rw [liveAfter]
        exact List.mem_append_left _ (List.mem_map_of_mem _ hes)
      have hgid : (reconcileEntry store items e).id_ = i.id_ := by
        rw [reconcileEntry_id, heid]
      have hret : retrieve (finalStoreSpec store items) i.id_ =
          some (reconcileEntry store items e) := by
        rw [← hgid]
        exact retrieve_of_mem_nodup hnd₂ hmem
      refine ⟨reconcileEntry store items e, hret, ?_⟩
      have hfind : List.find? (fun j => j.id_ == e.id_) items = some i := by
        have : retrieve items e.id_ = some i := by
          rw [heid]
          exact retrieve_of_mem_nodup hi hii
        exact this
      rw [reconcileEntry, hfind]
      simp only [hr]
      cases heq : fileRecordEq i e with
      | true => simp [heq]
      | false => simp [heq, fileRecordEq_refl]
  | none =>
      have hsaved : i ∈ savedSpec store items := by
        rw [savedSpec, List.mem_filter]
        exact ⟨hii, by simp [hr]⟩
      have hkeep : ((deletedSpec store items).all (fun r => i.id_ != r.id_)) = true := by
        rw [List.all_eq_true]
        intro r hrd
        simp only [deletedSpec, List.mem_filter] at hrd
        rw [bne_iff_ne, ne_eq]
        intro hc
        exact (retrieve_eq_none_iff store i.id_).mp hr r hrd.1 hc.symm
      have hmem : i ∈ finalStoreSpec store items := by
        rw [finalStoreSpec, List.mem_filter]
        refine ⟨?_, hkeep⟩
        rw [liveAfter]
        exact List.mem_append_right _ hsaved
      exact ⟨i, retrieve_of_mem_nodup hnd₂ hmem, fileRecordEq_refl i⟩

/-- Every entry of the reconciled collection carries an incoming id. -/
theorem finalStoreSpec_covered (store items : List DBRecord) :
    ∀ r ∈ finalStoreSpec store items, ∃ i ∈ items, i.id_ = r.id_ := by
  intro r hr
  rw [finalStoreSpec, List.mem_filter] at hr
  obtain ⟨hmem, hkeep⟩ := hr
  rw [liveAfter, List.mem_append] at hmem
  rcases hmem with hmem | hmem
  · obtain ⟨r₀, hr₀, hr₀e⟩ := List.mem_map.mp hmem
    by_cases hex : ∃ i ∈ items, i.id_ = r₀.id_
    · obtain ⟨i, hii, hid⟩ := hex
      exact ⟨i, hii, by rw [hid, ← hr₀e, reconcileEntry_id]⟩
    · exfalso
      have hrd : r₀ ∈ deletedSpec store items := by
        rw [deletedSpec, List.mem_filter]
        refine ⟨hr₀, List.all_eq_true.mpr ?_⟩
        intro i hii
        rw [bne_iff_ne, ne_eq]
        intro hc
        exact hex ⟨i, hii, hc⟩
      have := List.all_eq_true.mp hkeep r₀ hrd
      rw [← hr₀e, reconcileEntry_id, bne_iff_ne] at this
      exact this rfl
  · have hi' : r ∈ items := List.mem_of_mem_filter hmem
    exact ⟨r, hi', rfl⟩

/-- C3: running `save_update_delete` twice with the same duplicate-free
incoming sequence and no intervening store changes gives the second run
nothing to do: `saved`, `updated` and `deleted` come back empty and
`unchanged` is exactly the incoming sequence (`FileRecord.__eq__` compares
id and `updated_at`, both untouched by the first run). -/
theorem sud_idempotent (store items : List DBRecord)
    (hs : (idsOf store).Nodup) (hi : (idsOf items).Nodup) :
    ∃ res₁ res₂, save_update_delete store items = some res₁ ∧
      save_update_delete res₁.finalStore items = some res₂ ∧
      res₂.saved = [] ∧ res₂.updated = [] ∧ res₂.deleted = [] ∧
      res₂.unchanged = items := by
  have hfs : (deletedSpec store items).foldl (fun l r => deleteById l r.id_)
      (liveAfter store items store) = finalStoreSpec store items := by
    rw [foldl_deleteById]
    rfl
  refine ⟨_, { saved := savedSpec (finalStoreSpec store items) items
               updated := updatedSpec (finalStoreSpec store items) items
               deleted := deletedSpec (finalStoreSpec store items) items
               unchanged := unchangedSpec (finalStoreSpec store items) items
               finalStore := (deletedSpec (finalStoreSpec store items) items).foldl
                 (fun l r => deleteById l r.id_)
                 (liveAfter (finalStoreSpec store items) items
                   (finalStoreSpec store items)) },
    save_update_delete_eq store items hi, ?_, ?_, ?_, ?_, ?_⟩
  · show save_update_delete ((deletedSpec store items).foldl
        (fun l r => deleteById l r.id_) (liveAfter store items store)) items = some _
    rw [hfs]
    exact save_update_delete_eq (finalStoreSpec store items) items hi
  · show savedSpec (finalStoreSpec store items) items = []
    rw [savedSpec, List.filter_eq_nil_iff]
    intro i hii
    obtain ⟨e, hret, _⟩ := finalStoreSpec_retrieve store items hs hi i hii
    simp [hret]
  · show updatedSpec (finalStoreSpec store items) items = []
    rw [updatedSpec, List.filter_eq_nil_iff]
    intro i hii
    obtain ⟨e, hret, heq⟩ := finalStoreSpec_retrieve store items hs hi i hii
    simp [hret, heq]
  · show deletedSpec (finalStoreSpec store items) items = []
    rw [deletedSpec, List.filter_eq_nil_iff]
    intro r hrf
    obtain ⟨i, hii, hid⟩ := finalStoreSpec_covered store items r hrf
    intro hall
    have := List.all_eq_true.mp hall i hii
    simp [hid] at this
  · show unchangedSpec (finalStoreSpec store items) items = items
    rw [unchangedSpec, List.filter_eq_self]
    intro i hii
    obtain ⟨e, hret, heq⟩ := finalStoreSpec_retrieve store items hs hi i hii
    simp [hret, heq]

/-- Witness for `sud_partition`: the spec's own scenario — persisted
`{A, B, C}`, incoming `{A unchanged, B with a new timestamp, D new}`. -/
theorem sud_partition_witness :
    ∃ res, save_update_delete
        [⟨"a", 0, "A"⟩, ⟨"b", 0, "B"⟩, ⟨"c", 0, "C"⟩]
        [⟨"a", 0, "A"⟩, ⟨"b", 1, "B2"⟩, ⟨"d", 0, "D"⟩] = some res ∧
      ((idsOf res.saved).Disjoint (idsOf res.updated) ∧
       (idsOf res.saved).Disjoint (idsOf res.deleted) ∧
       (idsOf res.saved).Disjoint (idsOf res.unchanged) ∧
       (idsOf res.updated).Disjoint (idsOf res.deleted) ∧
       (idsOf res.updated).Disjoint (idsOf res.unchanged) ∧
       (idsOf res.deleted).Disjoint (idsOf res.unchanged)) ∧
      (∀ x, (x ∈ idsOf res.saved ∨ x ∈ idsOf res.updated ∨ x ∈ idsOf res.deleted ∨
          x ∈ idsOf res.unchanged) ↔
        (x ∈ idsOf [⟨"a", 0, "A"⟩, ⟨"b", 0, "B"⟩, ⟨"c", 0, "C"⟩] ∨
         x ∈ idsOf [⟨"a", 0, "A"⟩, ⟨"b", 1, "B2"⟩, ⟨"d", 0, "D"⟩])) ∧
      (∀ r ∈ [(⟨"a", 0, "A"⟩ : DBRecord), ⟨"b", 0, "B"⟩, ⟨"c", 0, "C"⟩],
        r.id_ ∉ idsOf [⟨"a", 0, "A"⟩, ⟨"b", 1, "B2"⟩, ⟨"d", 0, "D"⟩] →
        r.id_ ∈ idsOf res.deleted) :=
  sud_partition [⟨"a", 0, "A"⟩, ⟨"b", 0, "B"⟩, ⟨"c", 0, "C"⟩]
    [⟨"a", 0, "A"⟩, ⟨"b", 1, "B2"⟩, ⟨"d", 0, "D"⟩] (by decide) (by decide)

/-- Witness for `sud_idempotent`: a persisted singleton reconciled against
an unchanged record plus a fresh one, run twice. -/
theorem sud_idempotent_witness :
    ∃ res₁ res₂, save_update_delete [⟨"a", 0, "A"⟩]
        [⟨"a", 0, "A"⟩, ⟨"b", 1, "B"⟩] = some res₁ ∧
      save_update_delete res₁.finalStore [⟨"a", 0, "A"⟩, ⟨"b", 1, "B"⟩] = some res₂ ∧
      res₂.saved = [] ∧ res₂.updated = [] ∧ res₂.deleted = [] ∧
      res₂.unchanged = [⟨"a", 0, "A"⟩, ⟨"b", 1, "B"⟩] :=
  sud_idempotent [⟨"a", 0, "A"⟩] [⟨"a", 0, "A"⟩, ⟨"b", 1, "B"⟩]
    (by decide) (by decide)

end Indigo
